import Mathlib

/-!
Verification of the `ImplicitConditionalBarriers` CFG pass
(`lib/llvmopencl/ImplicitConditionalBarriers.cc`).

Blocks are identified by natural numbers.  A `Func` packages the data the
pass reads: the layout-ordered block list, predecessor and successor
adjacency, the per-block operation lists, and the four external oracles
the spec declares out of scope (dominance, post-dominance, the
barrier-block class test, and the kernel predicate), which we take as
fields of the structure.

The embedding is faithful to the source, including its sharp edges:

* in `firstNonBackedgePredecessor` the C++ loop condition is
  `DT->dominates(bb, *I) && I != E`, so the iterator is dereferenced
  before the bounds check; exhausting the predecessor list therefore
  performs a past-the-end read, modelled as the `FNBP.oob` outcome;
* the result of `firstNonBackedgePredecessor` is fed to
  `isa<BarrierBlock>(pos)` without a null check, modelled as the
  `RunErr.nullDeref` outcome;
* the backward trace `while` loop has no iteration bound, so the
  embedding gives it explicit fuel and a distinguished `RunErr.fuelOut`
  outcome that is reached exactly when the C++ loop fails to terminate
  within that many iterations.
-/

/-- The kinds of operations a block holds, as far as the pass can
distinguish them: PHI nodes (skipped by `getFirstNonPHI`), barrier
markers (`isa<Barrier>`), and everything else. -/
inductive Instr
  | phi
  | barrier
  | other (tag : Nat)
deriving DecidableEq

/-- Test for a PHI node. -/
def isPhi : Instr → Bool
  | Instr.phi => true
  | _ => false

/-- The test `isa<Barrier>(i)` on an instruction: is it a barrier marker. -/
def isBarrierInstr : Instr → Bool
  | Instr.barrier => true
  | _ => false

/-- `BasicBlock::getFirstNonPHI()`: the first operation of the block that
is not a PHI node, or `none` when every operation is a PHI (the C++ API
returns a null pointer then). -/
def getFirstNonPHI : List Instr → Option Instr
  | [] => none
  | i :: rest => if isPhi i then getFirstNonPHI rest else some i

/-- `Barrier::Create(where)` with `where = succ->getFirstNonPHI()`: a new
barrier marker is inserted immediately before the first non-PHI
operation, i.e. at the head of the block after any leading PHI nodes. -/
def insertBarrierAtHead (l : List Instr) : List Instr :=
  l.takeWhile isPhi ++ Instr.barrier :: l.dropWhile isPhi

/-- A kernel function as the pass sees it.  `blocks` is the layout-order
block list (the entry block first, as in LLVM); `preds` and `succs` give
the predecessor list in its natural iteration order and the terminator's
successor list; `insts` is each block's operation list.  `dom`, `pdom`,
`isBB` and `isKernel` are the external oracles: `DominatorTree`,
`PostDominatorTree`, the `isa<BarrierBlock>` class test and
`Workgroup::isKernelToProcess`. -/
structure Func where
  blocks : List Nat
  preds : Nat → List Nat
  succs : Nat → List Nat
  insts : Nat → List Instr
  dom : Nat → Nat → Bool
  pdom : Nat → Nat → Bool
  isBB : Nat → Bool
  isKernel : Bool

/-- `Function::getEntryBlock()`: the first block in layout order. -/
def Func.entry (F : Func) : Nat := F.blocks.headD 0

/-- Modelled from the spec: `Barrier::hasBarrier` lives in the external
`Barrier.h`, which is not part of the sources under verification.  The
spec defines it as: a block has a barrier if a barrier marker appears as
its first non-trivial operation. -/
def hasBarrier (l : List Instr) : Bool :=
  match getFirstNonPHI l with
  | some i => isBarrierInstr i
  | none => false

/-- Outcome of one call to `firstNonBackedgePredecessor`:
`found p` is a returned predecessor, `null` is the C++ `NULL` returned on
an empty predecessor list, and `oob` marks the past-the-end iterator
dereference the C++ loop performs when every predecessor is a back-edge
source (the `I != E` test is evaluated only after `*I`). -/
inductive FNBP
  | oob
  | null
  | found (p : Nat)
deriving DecidableEq

/-- The scan `while (DT->dominates(bb, *I) && I != E) ++I;` over the
remaining predecessor list: a dominated predecessor advances the
iterator, a non-dominated one is returned, and running off the end of
the list dereferences the end iterator. -/
def fnbpScan (F : Func) (bb : Nat) : List Nat → FNBP
  | [] => FNBP.oob
  | p :: ps => if F.dom bb p then fnbpScan F bb ps else FNBP.found p

/-- `ImplicitConditionalBarriers::firstNonBackedgePredecessor`: `NULL`
when the block has no predecessors, otherwise the iterator scan. -/
def firstNonBackedgePredecessor (F : Func) (bb : Nat) : FNBP :=
  match F.preds bb with
  | [] => FNBP.null
  | p :: ps => fnbpScan F bb (p :: ps)

/-- The abnormal outcomes of one `runOnFunction` invocation: the
past-the-end predecessor read, the null dereference of
`isa<BarrierBlock>(NULL)` or `isa<Barrier>(NULL)`, and exhaustion of the
fuel given to the unbounded backward trace loop. -/
inductive RunErr
  | oobRead
  | nullDeref
  | fuelOut
deriving DecidableEq

/-- The backward ancestor trace of Step 2:

  pos = firstNonBackedgePredecessor(b);
  while (!isa<BarrierBlock>(pos) && PDT->dominates(b, pos)) {
    pos = firstNonBackedgePredecessor(pos);
    if (pos == b) break;
  }

Fuel is spent once per loop iteration; `traceGo` is the loop with the
current `pos` known to be a real block. -/
def traceGo (F : Func) (b : Nat) (pos : Nat) : Nat → Except RunErr Nat
  | 0 =>
    if F.isBB pos || !F.pdom b pos then Except.ok pos
    else Except.error RunErr.fuelOut
  | fuel' + 1 =>
    if F.isBB pos || !F.pdom b pos then Except.ok pos
    else
      match firstNonBackedgePredecessor F pos with
      | FNBP.oob => Except.error RunErr.oobRead
      | FNBP.null => Except.error RunErr.nullDeref
      | FNBP.found q =>
        if q = b then Except.ok b else traceGo F b q fuel'

/-- The trace entered at the result of the initial
`firstNonBackedgePredecessor(b)` call: a `null` there is dereferenced by
the `isa` test of the loop condition, an `oob` is undefined behaviour
that already happened inside `firstNonBackedgePredecessor`. -/
def traceLoop (F : Func) (b : Nat) (fuel : Nat) : FNBP → Except RunErr Nat
  | FNBP.oob => Except.error RunErr.oobRead
  | FNBP.null => Except.error RunErr.nullDeref
  | FNBP.found pos => traceGo F b pos fuel

/-- One iteration of the successor loop of Step 3:

  Instruction *where = succ->getFirstNonPHI();
  if (isa<Barrier>(where)) continue;
  Barrier::Create(where);

A block of only PHI nodes would hand a null `where` to `isa`. -/
def injectSuccStep (ins : Nat → List Instr) (s : Nat) :
    Except RunErr (Nat → List Instr) :=
  match getFirstNonPHI (ins s) with
  | none => Except.error RunErr.nullDeref
  | some i =>
    if isBarrierInstr i then Except.ok ins
    else Except.ok (fun n => if n = s then insertBarrierAtHead (ins n) else ins n)

/-- The successor loop of Step 3 over the split point's successor list,
threading the mutable per-block operation lists. -/
def injectSuccs (ins : Nat → List Instr) : List Nat → Except RunErr (Nat → List Instr)
  | [] => Except.ok ins
  | s :: rest =>
    match injectSuccStep ins s with
    | Except.error e => Except.error e
    | Except.ok ins' => injectSuccs ins' rest

/-- Processing of one conditional barrier `b` from the collected list:
trace to the split point, then `if (isa<BarrierBlock>(pos) || pos == b)
continue;`, otherwise run the successor loop and set `changed = true`
(the source sets the flag after the successor loop unconditionally,
whether or not any successor actually received a marker). -/
def processBarrier (F : Func) (fuel : Nat) (ins : Nat → List Instr) (b : Nat) :
    Except RunErr ((Nat → List Instr) × Bool) :=
  match traceLoop F b fuel (firstNonBackedgePredecessor F b) with
  | Except.error e => Except.error e
  | Except.ok pos =>
    if F.isBB pos || pos == b then Except.ok (ins, false)
    else
      match injectSuccs ins (F.succs pos) with
      | Except.error e => Except.error e
      | Except.ok ins' => Except.ok (ins', true)

/-- The loop over the collected conditional-barrier list, accumulating
the changed flag. -/
def processBarriers (F : Func) (fuel : Nat) :
    List Nat → (Nat → List Instr) → Bool → Except RunErr ((Nat → List Instr) × Bool)
  | [], ins, ch => Except.ok (ins, ch)
  | b :: rest, ins, ch =>
    match processBarrier F fuel ins b with
    | Except.error e => Except.error e
    | Except.ok (ins', c) => processBarriers F fuel rest ins' (ch || c)

/-- Step 1: the conditional-barrier collection loop.  Blocks are visited
in layout order; a block is kept when it has a barrier and does not
post-dominate the entry block. -/
def condBarriers (F : Func) : List Nat :=
  F.blocks.filter (fun b => hasBarrier (F.insts b) && !F.pdom b F.entry)

/-- `ImplicitConditionalBarriers::runOnFunction`: early return on
non-kernel functions, collection, early return on an empty list, then
the repair loop.  The result is the function with its updated operation
lists and the changed flag. -/
def runOnFunction (F : Func) (fuel : Nat) : Except RunErr (Func × Bool) :=
  if F.isKernel = false then Except.ok (F, false)
  else
    if condBarriers F = [] then Except.ok (F, false)
    else
      match processBarriers F fuel (condBarriers F) F.insts false with
      | Except.error e => Except.error e
      | Except.ok (ins, ch) => Except.ok ({ F with insts := ins }, ch)

/-- Whether the trace for barrier `b` ends at a genuine split point: a
final `pos` that is neither a barrier block nor `b` itself.  This is
exactly the condition under which Step 3 runs and sets the changed
flag. -/
def splitFound (F : Func) (fuel : Nat) (b : Nat) : Bool :=
  match traceLoop F b fuel (firstNonBackedgePredecessor F b) with
  | Except.ok pos => !(F.isBB pos || pos == b)
  | Except.error _ => false

/-- The per-block frame invariant the repair loop maintains relative to
the operation lists `base` it started from: every block's list is
either untouched or is its original list with one barrier marker
inserted at the head. -/
def InsInv (base ins : Nat → List Instr) : Prop :=
  ∀ n, ins n = base n ∨ ins n = insertBarrierAtHead (base n)

/-- A function the kernel predicate rejects. -/
def exNK : Func where
  blocks := [0]
  preds := fun _ => []
  succs := fun _ => []
  insts := fun _ => [Instr.other 0]
  dom := fun a b => a == b
  pdom := fun a b => a == b
  isBB := fun _ => false
  isKernel := false

/-- Block 1 is a self-loop whose only predecessor is itself, so every
predecessor is a back-edge source (dominance is reflexive). -/
def exSelfLoop : Func where
  blocks := [0, 1]
  preds := fun n => if n = 1 then [1] else []
  succs := fun n => if n = 1 then [1] else []
  insts := fun n => [Instr.other n]
  dom := fun a b => a == b
  pdom := fun a b => a == b
  isBB := fun _ => false
  isKernel := true

/-- A kernel in which the collected conditional barrier, block 2, has a
single predecessor that it dominates (blocks 1 and 2 form a
two-block cycle), so the predecessor scan for it exhausts the list. -/
def exOobRun : Func where
  blocks := [0, 1, 2]
  preds := fun n => if n = 2 then [1] else if n = 1 then [2] else []
  succs := fun n => if n = 1 then [2] else if n = 2 then [1] else []
  insts := fun n => if n = 2 then [Instr.barrier, Instr.other 2] else [Instr.other n]
  dom := fun a b => a == b || (a == 2 && b == 1)
  pdom := fun a b => a == b
  isBB := fun _ => false
  isKernel := true

/-- An irreducible single-entry CFG: entry 0 branches to 1, 2 and 4;
blocks 1 and 2 form a cycle entered at both nodes (so neither edge of
the cycle is a back edge); 2 exits the cycle to the barrier block 3;
4 bypasses the barrier straight to the exit 5.  The `dom` and `pdom`
fields are the true dominance and post-dominance relations of this
graph. -/
def exIrr : Func where
  blocks := [0, 1, 2, 3, 4, 5]
  preds := fun n =>
    if n = 1 then [2, 0] else if n = 2 then [1, 0] else if n = 3 then [2]
    else if n = 4 then [0] else if n = 5 then [3, 4] else []
  succs := fun n =>
    if n = 0 then [1, 2, 4] else if n = 1 then [2] else if n = 2 then [1, 3]
    else if n = 3 then [5] else if n = 4 then [5] else []
  insts := fun n => if n = 3 then [Instr.barrier, Instr.other 3] else [Instr.other n]
  dom := fun a b => a == 0 || a == b || (a == 2 && b == 3)
  pdom := fun a b =>
    a == 5 || a == b || (a == 3 && (b == 1 || b == 2)) || (a == 2 && b == 1)
  isBB := fun _ => false
  isKernel := true

/-- Scenario B of the spec: the diamond entry 0 branching to 1 and 2,
both joining at the exit 3, where only branch 1 holds a barrier.  The
`dom` and `pdom` fields are the true relations of the diamond. -/
def exDia : Func where
  blocks := [0, 1, 2, 3]
  preds := fun n => if n = 1 then [0] else if n = 2 then [0] else if n = 3 then [1, 2] else []
  succs := fun n => if n = 0 then [1, 2] else if n = 3 then [] else [3]
  insts := fun n => if n = 1 then [Instr.barrier, Instr.other 1] else [Instr.other n]
  dom := fun a b => a == 0 || a == b
  pdom := fun a b => a == 3 || a == b
  isBB := fun _ => false
  isKernel := true

/-- The expected repair of `exDia`: a barrier marker inserted at the
head of block 2, everything else untouched. -/
def exDiaR : Func :=
  { exDia with
    insts := fun n => if n = 2 then insertBarrierAtHead (exDia.insts n) else exDia.insts n }

/-- The diamond of `exDia` with a barrier already heading both branches
1 and 2: both are collected as conditional barriers, the split point 0
is found for each, but every successor of 0 already begins with a
barrier, so nothing is inserted. -/
def exAllB : Func where
  blocks := [0, 1, 2, 3]
  preds := fun n => if n = 1 then [0] else if n = 2 then [0] else if n = 3 then [1, 2] else []
  succs := fun n => if n = 0 then [1, 2] else if n = 3 then [] else [3]
  insts := fun n => if n = 1 ∨ n = 2 then [Instr.barrier, Instr.other n] else [Instr.other n]
  dom := fun a b => a == 0 || a == b
  pdom := fun a b => a == 3 || a == b
  isBB := fun _ => false
  isKernel := true

/-- A kernel whose only barrier block, the sole exit 1, post-dominates
the entry: the barrier is unconditional and the collected list is
empty. -/
def exU : Func where
  blocks := [0, 1]
  preds := fun n => if n = 1 then [0] else []
  succs := fun n => if n = 0 then [1] else []
  insts := fun n => if n = 1 then [Instr.barrier, Instr.other 1] else [Instr.other 0]
  dom := fun a b => a == 0 || a == b
  pdom := fun a b => a == 1 || a == b
  isBB := fun _ => false
  isKernel := true


theorem isBarrierInstr_eq_true {i : Instr} : isBarrierInstr i = true ↔ i = Instr.barrier := by
  cases i <;> simp [isBarrierInstr]

theorem hasBarrier_iff (l : List Instr) :
    hasBarrier l = true ↔ getFirstNonPHI l = some Instr.barrier := by
  unfold hasBarrier
  cases h : getFirstNonPHI l with
  | none => simp
  | some i => simp [isBarrierInstr_eq_true]

theorem getFirstNonPHI_insertBarrierAtHead (l : List Instr) :
    getFirstNonPHI (insertBarrierAtHead l) = some Instr.barrier := by
  induction l with
  | nil => rfl
  | cons i t ih =>
    by_cases h : isPhi i = true
    · rw [insertBarrierAtHead, List.takeWhile_cons, List.dropWhile_cons, if_pos h, if_pos h,
        List.cons_append, getFirstNonPHI, if_pos h]
      exact ih
    · rw [insertBarrierAtHead, List.takeWhile_cons, List.dropWhile_cons, if_neg h, if_neg h]
      rfl

theorem injectSuccStep_other {ins ins' : Nat → List Instr} {s : Nat}
    (h : injectSuccStep ins s = Except.ok ins') :
    ∀ n, n ≠ s → ins' n = ins n := by
  intro n hn
  unfold injectSuccStep at h
  split at h
  · exact absurd h (by simp)
  · split at h
    · simp only [Except.ok.injEq] at h
      subst h
      rfl
    · simp only [Except.ok.injEq] at h
      subst h
      simp [hn]

theorem injectSuccStep_at {ins ins' : Nat → List Instr} {s : Nat}
    (h : injectSuccStep ins s = Except.ok ins') :
    (getFirstNonPHI (ins s) = some Instr.barrier ∧ ins' s = ins s) ∨
    (getFirstNonPHI (ins s) ≠ some Instr.barrier ∧
      ins' s = insertBarrierAtHead (ins s)) := by
  unfold injectSuccStep at h
  split at h
  · exact absurd h (by simp)
  · rename_i i heq
    by_cases hb : isBarrierInstr i = true
    · rw [if_pos hb] at h
      simp only [Except.ok.injEq] at h
      subst h
      exact Or.inl ⟨by rw [heq, isBarrierInstr_eq_true.mp hb], rfl⟩
    · rw [if_neg hb] at h
      simp only [Except.ok.injEq] at h
      subst h
      refine Or.inr ⟨?_, by simp⟩
      rw [heq]
      intro hc
      exact hb (isBarrierInstr_eq_true.mpr (Option.some.inj hc))

theorem injectSuccStep_bf_after {ins ins' : Nat → List Instr} {s : Nat}
    (h : injectSuccStep ins s = Except.ok ins') :
    getFirstNonPHI (ins' s) = some Instr.barrier := by
  rcases injectSuccStep_at h with ⟨hbf, he⟩ | ⟨hnb, he⟩
  · rw [he, hbf]
  · rw [he, getFirstNonPHI_insertBarrierAtHead]

theorem injectSuccs_spec :
    ∀ (L : List Nat) {ins ins' : Nat → List Instr},
      injectSuccs ins L = Except.ok ins' →
      (∀ s ∈ L,
        (getFirstNonPHI (ins s) = some Instr.barrier → ins' s = ins s) ∧
        (getFirstNonPHI (ins s) ≠ some Instr.barrier →
          ins' s = insertBarrierAtHead (ins s))) ∧
      (∀ n, n ∉ L → ins' n = ins n) := by
  intro L
  induction L with
  | nil =>
    intro ins ins' h
    cases h
    exact ⟨by simp, fun n _ => rfl⟩
  | cons s0 rest ih =>
    intro ins ins' h
    unfold injectSuccs at h
    cases hstep : injectSuccStep ins s0 with
    | error e => rw [hstep] at h; exact absurd h (by simp)
    | ok ins1 =>
      rw [hstep] at h
      obtain ⟨ihmem, ihout⟩ := ih h
      have hkeep : ins' s0 = ins1 s0 := by
        by_cases hm : s0 ∈ rest
        · exact (ihmem s0 hm).1 (injectSuccStep_bf_after hstep)
        · exact ihout s0 hm
      constructor
      · intro s hs
        by_cases hse : s = s0
        · subst hse
          rcases injectSuccStep_at hstep with ⟨hbf, he⟩ | ⟨hnb, he⟩
          · exact ⟨fun _ => by rw [hkeep, he], fun hc => absurd hbf hc⟩
          · exact ⟨fun hc => absurd hc hnb, fun _ => by rw [hkeep, he]⟩
        · have hs' : s ∈ rest := by
            rcases List.mem_cons.mp hs with h1 | h1
            · exact absurd h1 hse
            · exact h1
          have heq : ins1 s = ins s := injectSuccStep_other hstep s hse
          have := ihmem s hs'
          rw [heq] at this
          exact this
      · intro n hn
        have hn0 : n ≠ s0 := fun hc => hn (hc ▸ List.mem_cons_self s0 rest)
        have hnr : n ∉ rest := fun hc => hn (List.mem_cons_of_mem s0 hc)
        rw [ihout n hnr, injectSuccStep_other hstep n hn0]

theorem injectSuccStep_insInv {base ins ins' : Nat → List Instr} {s : Nat}
    (hins : InsInv base ins) (h : injectSuccStep ins s = Except.ok ins') :
    InsInv base ins' := by
  intro n
  rcases injectSuccStep_at h with ⟨hbf, he⟩ | ⟨hnb, he⟩
  · by_cases hn : n = s
    · subst hn; rw [he]; exact hins n
    · rw [injectSuccStep_other h n hn]; exact hins n
  · by_cases hn : n = s
    · subst hn
      rcases hins n with h1 | h1
      · rw [he, h1]; exact Or.inr rfl
      · exact absurd (h1 ▸ getFirstNonPHI_insertBarrierAtHead (base n)) hnb
    · rw [injectSuccStep_other h n hn]; exact hins n

theorem injectSuccs_insInv :
    ∀ (L : List Nat) {base ins ins' : Nat → List Instr},
      InsInv base ins → injectSuccs ins L = Except.ok ins' → InsInv base ins' := by
  intro L
  induction L with
  | nil => intro base ins ins' hins h; cases h; exact hins
  | cons s0 rest ih =>
    intro base ins ins' hins h
    unfold injectSuccs at h
    cases hstep : injectSuccStep ins s0 with
    | error e => rw [hstep] at h; exact absurd h (by simp)
    | ok ins1 => rw [hstep] at h; exact ih (injectSuccStep_insInv hins hstep) h

theorem injectSuccs_preserve_bf :
    ∀ (L : List Nat) {ins ins' : Nat → List Instr},
      injectSuccs ins L = Except.ok ins' →
      ∀ n, getFirstNonPHI (ins n) = some Instr.barrier → ins' n = ins n := by
  intro L
  induction L with
  | nil => intro ins ins' h n _; cases h; rfl
  | cons s0 rest ih =>
    intro ins ins' h n hbf
    unfold injectSuccs at h
    cases hstep : injectSuccStep ins s0 with
    | error e => rw [hstep] at h; exact absurd h (by simp)
    | ok ins1 =>
      rw [hstep] at h
      have h1 : ins1 n = ins n := by
        by_cases hn : n = s0
        · subst hn
          rcases injectSuccStep_at hstep with ⟨-, he⟩ | ⟨hnb, -⟩
          · exact he
          · exact absurd hbf hnb
        · exact injectSuccStep_other hstep n hn
      rw [← h1]
      exact ih h n (h1 ▸ hbf)

theorem processBarrier_insInv {F : Func} {fuel : Nat} {base ins ins' : Nat → List Instr}
    {b : Nat} {c : Bool} (hins : InsInv base ins)
    (h : processBarrier F fuel ins b = Except.ok (ins', c)) : InsInv base ins' := by
  unfold processBarrier at h
  split at h
  · exact absurd h (by simp)
  · split at h
    · simp only [Except.ok.injEq, Prod.mk.injEq] at h
      obtain ⟨h1, -⟩ := h
      subst h1
      exact hins
    · split at h
      · exact absurd h (by simp)
      · rename_i ins1 hinj
        simp only [Except.ok.injEq, Prod.mk.injEq] at h
        obtain ⟨h1, -⟩ := h
        subst h1
        exact injectSuccs_insInv _ hins hinj

theorem processBarrier_preserve_bf {F : Func} {fuel : Nat} {ins ins' : Nat → List Instr}
    {b : Nat} {c : Bool} (h : processBarrier F fuel ins b = Except.ok (ins', c)) :
    ∀ n, getFirstNonPHI (ins n) = some Instr.barrier → ins' n = ins n := by
  intro n hbf
  unfold processBarrier at h
  split at h
  · exact absurd h (by simp)
  · split at h
    · simp only [Except.ok.injEq, Prod.mk.injEq] at h
      obtain ⟨h1, -⟩ := h
      subst h1
      rfl
    · split at h
      · exact absurd h (by simp)
      · rename_i ins1 hinj
        simp only [Except.ok.injEq, Prod.mk.injEq] at h
        obtain ⟨h1, -⟩ := h
        subst h1
        exact injectSuccs_preserve_bf _ hinj n hbf

theorem processBarrier_changed {F : Func} {fuel : Nat} {ins ins' : Nat → List Instr}
    {b : Nat} {c : Bool} (h : processBarrier F fuel ins b = Except.ok (ins', c)) :
    c = splitFound F fuel b := by
  unfold processBarrier at h
  unfold splitFound
  split at h
  · exact absurd h (by simp)
  · rename_i pos htr
    rw [htr]
    split at h
    · rename_i hcond
      simp only [Except.ok.injEq, Prod.mk.injEq] at h
      obtain ⟨-, h2⟩ := h
      subst h2
      simp [hcond]
    · rename_i hcond
      split at h
      · exact absurd h (by simp)
      · rename_i ins1 hinj
        simp only [Except.ok.injEq, Prod.mk.injEq] at h
        obtain ⟨-, h2⟩ := h
        subst h2
        simp [Bool.not_eq_true] at hcond
        simp [hcond]

theorem processBarriers_insInv :
    ∀ (L : List Nat) {F : Func} {fuel : Nat} {base ins ins' : Nat → List Instr}
      {ch ch' : Bool}, InsInv base ins →
      processBarriers F fuel L ins ch = Except.ok (ins', ch') → InsInv base ins' := by
  intro L
  induction L with
  | nil =>
    intro F fuel base ins ins' ch ch' hins h
    unfold processBarriers at h
    simp only [Except.ok.injEq, Prod.mk.injEq] at h
    obtain ⟨h1, -⟩ := h
    subst h1
    exact hins
  | cons b rest ih =>
    intro F fuel base ins ins' ch ch' hins h
    unfold processBarriers at h
    split at h
    · exact absurd h (by simp)
    · rename_i ins1 c hb
      exact ih (processBarrier_insInv hins hb) h

theorem processBarriers_preserve_bf :
    ∀ (L : List Nat) {F : Func} {fuel : Nat} {ins ins' : Nat → List Instr}
      {ch ch' : Bool},
      processBarriers F fuel L ins ch = Except.ok (ins', ch') →
      ∀ n, getFirstNonPHI (ins n) = some Instr.barrier → ins' n = ins n := by
  intro L
  induction L with
  | nil =>
    intro F fuel ins ins' ch ch' h n hbf
    unfold processBarriers at h
    simp only [Except.ok.injEq, Prod.mk.injEq] at h
    obtain ⟨h1, -⟩ := h
    subst h1
    rfl
  | cons b rest ih =>
    intro F fuel ins ins' ch ch' h n hbf
    unfold processBarriers at h
    split at h
    · exact absurd h (by simp)
    · rename_i ins1 c hb
      have h1 : ins1 n = ins n := processBarrier_preserve_bf hb n hbf
      rw [← h1]
      exact ih h n (h1 ▸ hbf)

theorem processBarriers_changed :
    ∀ (L : List Nat) {F : Func} {fuel : Nat} {ins ins' : Nat → List Instr}
      {ch ch' : Bool},
      processBarriers F fuel L ins ch = Except.ok (ins', ch') →
      ch' = (ch || L.any (splitFound F fuel)) := by
  intro L
  induction L with
  | nil =>
    intro F fuel ins ins' ch ch' h
    unfold processBarriers at h
    simp only [Except.ok.injEq, Prod.mk.injEq] at h
    obtain ⟨-, h2⟩ := h
    subst h2
    simp
  | cons b rest ih =>
    intro F fuel ins ins' ch ch' h
    unfold processBarriers at h
    split at h
    · exact absurd h (by simp)
    · rename_i ins1 c hb
      rw [ih h, processBarrier_changed hb, List.any_cons, Bool.or_assoc]

theorem runOnFunction_shape {F : Func} {fuel : Nat} {F' : Func} {ch : Bool}
    (h : runOnFunction F fuel = Except.ok (F', ch)) :
    F'.blocks = F.blocks ∧ F'.preds = F.preds ∧ F'.succs = F.succs ∧
    F'.dom = F.dom ∧ F'.pdom = F.pdom ∧ F'.isBB = F.isBB ∧
    F'.isKernel = F.isKernel := by
  unfold runOnFunction at h
  split at h
  · simp only [Except.ok.injEq, Prod.mk.injEq] at h
    obtain ⟨h1, -⟩ := h
    subst h1
    exact ⟨rfl, rfl, rfl, rfl, rfl, rfl, rfl⟩
  · split at h
    · simp only [Except.ok.injEq, Prod.mk.injEq] at h
      obtain ⟨h1, -⟩ := h
      subst h1
      exact ⟨rfl, rfl, rfl, rfl, rfl, rfl, rfl⟩
    · split at h
      · exact absurd h (by simp)
      · rename_i ins1 ch1 hp
        simp only [Except.ok.injEq, Prod.mk.injEq] at h
        obtain ⟨h1, -⟩ := h
        subst h1
        exact ⟨rfl, rfl, rfl, rfl, rfl, rfl, rfl⟩

theorem runOnFunction_insInv {F : Func} {fuel : Nat} {F' : Func} {ch : Bool}
    (h : runOnFunction F fuel = Except.ok (F', ch)) :
    InsInv F.insts F'.insts := by
  unfold runOnFunction at h
  split at h
  · simp only [Except.ok.injEq, Prod.mk.injEq] at h
    obtain ⟨h1, -⟩ := h
    subst h1
    exact fun n => Or.inl rfl
  · split at h
    · simp only [Except.ok.injEq, Prod.mk.injEq] at h
      obtain ⟨h1, -⟩ := h
      subst h1
      exact fun n => Or.inl rfl
    · split at h
      · exact absurd h (by simp)
      · rename_i ins1 ch1 hp
        simp only [Except.ok.injEq, Prod.mk.injEq] at h
        obtain ⟨h1, -⟩ := h
        subst h1
        exact processBarriers_insInv _ (fun n => Or.inl rfl) hp

theorem runOnFunction_preserve_bf {F : Func} {fuel : Nat} {F' : Func} {ch : Bool}
    (h : runOnFunction F fuel = Except.ok (F', ch)) :
    ∀ n, getFirstNonPHI (F.insts n) = some Instr.barrier → F'.insts n = F.insts n := by
  intro n hbf
  unfold runOnFunction at h
  split at h
  · simp only [Except.ok.injEq, Prod.mk.injEq] at h
    obtain ⟨h1, -⟩ := h
    subst h1
    rfl
  · split at h
    · simp only [Except.ok.injEq, Prod.mk.injEq] at h
      obtain ⟨h1, -⟩ := h
      subst h1
      rfl
    · split at h
      · exact absurd h (by simp)
      · rename_i ins1 ch1 hp
        simp only [Except.ok.injEq, Prod.mk.injEq] at h
        obtain ⟨h1, -⟩ := h
        subst h1
        exact processBarriers_preserve_bf _ hp n hbf

/-- C10: for every function the kernel predicate rejects, repair returns
false and the function comes back unchanged: the same block list, edges
and per-block operation lists. -/
theorem non_kernel_noop (F : Func) (fuel : Nat) (h : F.isKernel = false) :
    runOnFunction F fuel = Except.ok (F, false) := by
  unfold runOnFunction
  rw [if_pos h]

/-- Witness for C10 at the concrete non-kernel function `exNK`. -/
theorem non_kernel_noop_witness : runOnFunction exNK 0 = Except.ok (exNK, false) :=
  non_kernel_noop exNK 0 rfl

/-- C6: a barrier that post-dominates the entry block is never placed in
the conditional-barrier list; the list is collected in function layout
order (it is a sublist of the layout-ordered block list); a function
without any barrier block collects an empty list; and an empty list
makes repair return false with the function unchanged. -/
theorem collect_spec (F : Func) (fuel : Nat) :
    (∀ b, F.pdom b F.entry = true → b ∉ condBarriers F) ∧
    List.Sublist (condBarriers F) F.blocks ∧
    ((∀ b, hasBarrier (F.insts b) = false) → condBarriers F = []) ∧
    (condBarriers F = [] → runOnFunction F fuel = Except.ok (F, false)) := by
  refine ⟨?_, List.filter_sublist F.blocks, ?_, ?_⟩
  · intro b hb hmem
    rw [condBarriers, List.mem_filter] at hmem
    simp [hb] at hmem
  · intro h
    rw [condBarriers, List.filter_eq_nil_iff]
    intro a _
    simp [h a]
  · intro h
    unfold runOnFunction
    by_cases hk : F.isKernel = false
    · rw [if_pos hk]
    · rw [if_neg hk, if_pos h]

/-- Witness for C6 at `exU`: its unconditional barrier block 1 is not
collected, and the empty collection makes repair a no-op. -/
theorem collect_spec_witness :
    1 ∉ condBarriers exU ∧ runOnFunction exU 4 = Except.ok (exU, false) :=
  ⟨(collect_spec exU 4).1 1 rfl, (collect_spec exU 4).2.2.2 rfl⟩

/-- C7: a successful run preserves the block list, the predecessor and
successor maps, both dominance oracles (which therefore stay valid: the
topology they were computed for is untouched), the barrier-block oracle
and the kernel flag; and every block's operation list is either
untouched or is its input list with exactly one new barrier marker
inserted at the block head. -/
theorem run_frame (F : Func) (fuel : Nat) (F' : Func) (ch : Bool)
    (h : runOnFunction F fuel = Except.ok (F', ch)) :
    F'.blocks = F.blocks ∧ F'.preds = F.preds ∧ F'.succs = F.succs ∧
    F'.dom = F.dom ∧ F'.pdom = F.pdom ∧ F'.isBB = F.isBB ∧
    F'.isKernel = F.isKernel ∧
    ∀ n, F'.insts n = F.insts n ∨ F'.insts n = insertBarrierAtHead (F.insts n) := by
  obtain ⟨h1, h2, h3, h4, h5, h6, h7⟩ := runOnFunction_shape h
  exact ⟨h1, h2, h3, h4, h5, h6, h7, runOnFunction_insInv h⟩

/-- Witness for C7 at the diamond `exDia`: the run keeps the
post-dominance oracle and changes block 2 only by head insertion. -/
theorem run_frame_witness :
    exDiaR.pdom = exDia.pdom ∧
    (exDiaR.insts 2 = exDia.insts 2 ∨
      exDiaR.insts 2 = insertBarrierAtHead (exDia.insts 2)) := by
  have h := run_frame exDia 5 exDiaR true rfl
  exact ⟨h.2.2.2.2.1, h.2.2.2.2.2.2.2 2⟩

/-- C5: when the trace for conditional barrier `b` ends at a genuine
split point `pos` (not a barrier block, not `b` itself), Step 3 sets
the changed flag and visits every successor of `pos`: a successor whose
first non-PHI operation is already a barrier marker is left unchanged,
every other successor gets a new barrier marker inserted at its head
(before all of its non-PHI operations), and no other block is
touched. -/
theorem split_insertion (F : Func) (fuel : Nat) (ins ins' : Nat → List Instr)
    (b pos : Nat) (c : Bool)
    (ht : traceLoop F b fuel (firstNonBackedgePredecessor F b) = Except.ok pos)
    (hbb : F.isBB pos = false) (hne : pos ≠ b)
    (h : processBarrier F fuel ins b = Except.ok (ins', c)) :
    c = true ∧
    (∀ s ∈ F.succs pos,
      (getFirstNonPHI (ins s) = some Instr.barrier → ins' s = ins s) ∧
      (getFirstNonPHI (ins s) ≠ some Instr.barrier →
        ins' s = insertBarrierAtHead (ins s))) ∧
    (∀ n, n ∉ F.succs pos → ins' n = ins n) := by
  unfold processBarrier at h
  split at h
  · exact absurd h (by simp)
  · rename_i pos' htr
    have hpp : pos' = pos := (Except.ok.inj (ht.symm.trans htr)).symm
    subst hpp
    split at h
    · rename_i hthen
      rw [hbb] at hthen
      simp at hthen
      exact absurd hthen hne
    · split at h
      · exact absurd h (by simp)
      · rename_i ins1 hinj
        simp only [Except.ok.injEq, Prod.mk.injEq] at h
        obtain ⟨h1, h2⟩ := h
        subst h1
        exact ⟨h2.symm, (injectSuccs_spec _ hinj).1, (injectSuccs_spec _ hinj).2⟩

/-- Witness for C5 at the diamond `exDia`: the split point for barrier 1
is the entry 0, and successor 2, which does not yet start with a
barrier, receives one at its head. -/
theorem split_insertion_witness :
    exDiaR.insts 2 = insertBarrierAtHead (exDia.insts 2) :=
  ((split_insertion exDia 7 exDia.insts exDiaR.insts 1 0 true rfl rfl (by decide)
      rfl).2.1 2 (by decide)).2 (by decide)

/-- C8: a site repaired by a first successful run, i.e. a block whose
operation list the first run changed, now begins with a barrier marker,
so a second run recognizes it as already protected and leaves its
operation list unchanged. -/
theorem run_idempotent_sites (F F1 F2 : Func) (fa fb : Nat) (c1 c2 : Bool)
    (h1 : runOnFunction F fa = Except.ok (F1, c1))
    (h2 : runOnFunction F1 fb = Except.ok (F2, c2)) :
    ∀ s, F1.insts s ≠ F.insts s → F2.insts s = F1.insts s := by
  intro s hs
  rcases runOnFunction_insInv h1 s with hcase | hcase
  · exact absurd hcase hs
  · exact runOnFunction_preserve_bf h2 s
      (by rw [hcase]; exact getFirstNonPHI_insertBarrierAtHead (F.insts s))

/-- Witness for C8: running the repair again on the repaired diamond
leaves the marker inserted into block 2 alone. -/
theorem run_idempotent_sites_witness : exDiaR.insts 2 = exDiaR.insts 2 :=
  run_idempotent_sites exDia exDiaR exDiaR 5 5 true true rfl rfl 2 (by decide)

/-- C9: the conditional-barrier list is a snapshot taken before any
mutation: any block that already had a barrier as its first non-trivial
operation keeps its operation list untouched by the run, and any block
into which the run inserted a marker is not in the collected list, so
markers inserted during the invocation are never themselves collected,
traced or repaired within that invocation. -/
theorem snapshot_no_reprocess (F : Func) (fuel : Nat) (F' : Func) (ch : Bool)
    (h : runOnFunction F fuel = Except.ok (F', ch)) :
    (∀ s, hasBarrier (F.insts s) = true → F'.insts s = F.insts s) ∧
    (∀ s, F'.insts s ≠ F.insts s → s ∉ condBarriers F) := by
  constructor
  · intro s hs
    exact runOnFunction_preserve_bf h s ((hasBarrier_iff (F.insts s)).mp hs)
  · intro s hs hmem
    rw [condBarriers, List.mem_filter] at hmem
    have hb2 := hmem.2
    rw [Bool.and_eq_true] at hb2
    have hb : hasBarrier (F.insts s) = true := hb2.1
    exact hs (runOnFunction_preserve_bf h s ((hasBarrier_iff (F.insts s)).mp hb))

/-- Witness for C9 at the diamond `exDia`: the pre-existing barrier
block 1 is untouched by the run, and block 2, which received a marker,
is not in the collected conditional-barrier list. -/
theorem snapshot_no_reprocess_witness :
    exDiaR.insts 1 = exDia.insts 1 ∧ 2 ∉ condBarriers exDia :=
  ⟨(snapshot_no_reprocess exDia 5 exDiaR true rfl).1 1 (by decide),
   (snapshot_no_reprocess exDia 5 exDiaR true rfl).2 2 (by decide)⟩

/-- C1 counterexample: on `exAllB` a split point (the entry 0) is
located for each of the two conditional barriers, every successor of
the split point already begins with a barrier marker, so not a single
marker is inserted, the function comes back equal, and yet repair
returns true, refuting the claim that true is returned only when at
least one marker was actually inserted. -/
theorem changed_without_insertion : runOnFunction exAllB 5 = Except.ok (exAllB, true) :=
  rfl

/-- C1 amended: repair returns true iff the function is a kernel and the
trace of at least one collected conditional barrier locates a split
point (a final position that is neither a barrier block nor the barrier
itself), whether or not a marker is actually inserted there. -/
theorem changed_iff_split_found (F : Func) (fuel : Nat) (F' : Func) (ch : Bool)
    (h : runOnFunction F fuel = Except.ok (F', ch)) :
    ch = true ↔
      (F.isKernel = true ∧ (condBarriers F).any (splitFound F fuel) = true) := by
  unfold runOnFunction at h
  split at h
  · rename_i hk
    simp only [Except.ok.injEq, Prod.mk.injEq] at h
    obtain ⟨-, h2⟩ := h
    subst h2
    simp [hk]
  · rename_i hk
    have hk' : F.isKernel = true := by
      cases hkk : F.isKernel
      · exact absurd hkk hk
      · rfl
    split at h
    · rename_i hc
      simp only [Except.ok.injEq, Prod.mk.injEq] at h
      obtain ⟨-, h2⟩ := h
      subst h2
      simp [hc]
    · split at h
      · exact absurd h (by simp)
      · rename_i ins1 ch1 hp
        simp only [Except.ok.injEq, Prod.mk.injEq] at h
        obtain ⟨-, h2⟩ := h
        subst h2
        have hch := processBarriers_changed _ hp
        simp only [Bool.false_or] at hch
        rw [hch]
        simp [hk']

/-- Witness for the amended C1 at `exAllB`: the returned true flag does
come from a located split point. -/
theorem changed_iff_split_found_witness :
    exAllB.isKernel = true ∧ (condBarriers exAllB).any (splitFound exAllB 5) = true :=
  (changed_iff_split_found exAllB 5 exAllB true rfl).mp rfl

/-- C2: evaluating the code at the failing input.  Block 1 of
`exSelfLoop` has exactly one predecessor, itself, and dominates it
(dominance is reflexive), so every predecessor is a back-edge source.
The spec says the ancestor lookup returns the null result there, but
the scan dereferences the past-the-end predecessor iterator instead:
the bounds test `I != E` of the C++ loop is evaluated only after `*I`. -/
theorem fnbp_all_backedge_overruns :
    firstNonBackedgePredecessor exSelfLoop 1 = FNBP.oob ∧ FNBP.oob ≠ FNBP.null :=
  ⟨rfl, by decide⟩

/-- C3: evaluating the code at the failing input.  On `exOobRun` the
repair run reaches the predecessor scan of collected barrier block 2,
all of whose predecessors are back-edge sources, and performs the
past-the-end read for every fuel bound: the scan is not total on the
inputs the claim ranges over. -/
theorem run_hits_oob_read :
    ∀ fuel, runOnFunction exOobRun fuel = Except.error RunErr.oobRead :=
  fun _ => rfl

theorem exIrr_trace_alternates :
    ∀ n, traceGo exIrr 3 1 n = Except.error RunErr.fuelOut ∧
      traceGo exIrr 3 2 n = Except.error RunErr.fuelOut := by
  intro n
  induction n with
  | zero => exact ⟨rfl, rfl⟩
  | succ n ih => exact ⟨ih.2, ih.1⟩

/-- C4: evaluating the code at the failing input.  In the well-formed
single-entry but irreducible CFG `exIrr` (whose `dom` and `pdom` fields
are the true dominance and post-dominance relations of the graph),
block 3 is a collected conditional barrier whose backward ancestor
trace alternates between blocks 1 and 2 of the back-edge-free cycle
forever: it exhausts every fuel bound, so the unbounded C++ loop never
terminates and reaches none of the four outcomes the claim lists. -/
theorem trace_nonterminating :
    3 ∈ condBarriers exIrr ∧
    ∀ fuel, traceLoop exIrr 3 fuel (firstNonBackedgePredecessor exIrr 3) =
      Except.error RunErr.fuelOut :=
  ⟨by decide, fun fuel => (exIrr_trace_alternates fuel).2⟩
